import Mathlib

/-!
Shallow embedding of `src/main.rs` of `gmail_extractor`: a pipeline that
lists all Gmail message ids page by page, fetches each message's "From"
header under bounded concurrency, extracts a sender address with the regex
`[\w.-]+@[\w.-]+`, lower-cases it and counts occurrences in a shared
mutex-guarded `HashMap<String, usize>`, finally writing a CSV report.

Strings are modelled as `List Char` (`Str`), the counting map as an
association list mirroring `HashMap::entry(..).or_insert(0) += 1`, and the
remote API as explicit lists of responses.
-/

namespace GmailExtractor

abbrev Str := List Char

/-! ### Constants (src/main.rs lines 16-18) -/

def BATCH_SIZE : Nat := 100

def MAX_PARALLEL_BATCHES : Nat := 5

def DELAY_MS_BETWEEN_BATCHES : Nat := 80

/-! ### The shared counting map (src/main.rs line 80)

`counts : Arc<Mutex<HashMap<String, usize>>>`.  The mutex makes every
increment atomic, so any concurrent execution is observationally a
serialization of the individual `record` operations; the map itself is
modelled as an association list. -/

abbrev Tally := List (Str × Nat)

/-- Model of `*lock.entry(addr).or_insert(0) += 1` (src/main.rs lines
126-128): increment the count for `a`, inserting `(a, 0)` first if
absent. -/
def record (m : Tally) (a : Str) : Tally :=
  match m with
  | [] => [(a, 1)]
  | (k, v) :: rest => if k = a then (k, v + 1) :: rest else (k, v) :: record rest a

/-- Read the count stored for address `a` (absent keys read as 0). -/
def tallyGet (m : Tally) (a : Str) : Nat :=
  match m with
  | [] => 0
  | (k, v) :: rest => if k = a then v else tallyGet rest a

/-- Sum of all stored counts. -/
def tallySum (m : Tally) : Nat :=
  (m.map Prod.snd).sum

/-- Run a serialization of `record` calls, starting from tally `m`. -/
def recordAll (m : Tally) (calls : List Str) : Tally :=
  calls.foldl record m

/-! ### Address extraction (src/main.rs lines 81, 125-128)

`let re = Regex::new(r"[\w\.-]+@[\w\.-]+").unwrap();` and
`re.find(&val)` followed by `mat.as_str().to_lowercase()`.

The character class `[\w.-]` is modelled over its ASCII fragment
(`A-Z a-z 0-9 _ . -`); lower-casing is ASCII lower-casing, which is also
the comparison performed by `eq_ignore_ascii_case`. -/

/-- ASCII lower-casing of one character, as applied by `to_lowercase` /
`eq_ignore_ascii_case` to ASCII input: `A`-`Z` shifts by 32, anything else
is unchanged. -/
def toLowerChar (c : Char) : Char :=
  if 65 ≤ c.toNat ∧ c.toNat ≤ 90 then Char.ofNat (c.toNat + 32) else c

/-- Membership in the character class `[\w.-]` (ASCII fragment):
digits, letters, `_`, `.`, `-`. -/
def isAddrChar (c : Char) : Bool :=
  decide ((48 ≤ c.toNat ∧ c.toNat ≤ 57) ∨ (65 ≤ c.toNat ∧ c.toNat ≤ 90) ∨
    (97 ≤ c.toNat ∧ c.toNat ≤ 122) ∨ c.toNat = 95 ∨ c.toNat = 46 ∨ c.toNat = 45)

/-- The literal `@` (code point 64). -/
def isAtChar (c : Char) : Bool :=
  decide (c.toNat = 64)

/-- Attempt of the pattern `[\w.-]+@[\w.-]+` anchored at the start of `l`:
a maximal nonempty run of address characters, an `@`, then a maximal
nonempty run of address characters.  (Since `@` is not an address
character, greedy backtracking can never succeed with a shorter first run,
so this is exactly the regex's behaviour at one start position.) -/
def matchAt (l : Str) : Option Str :=
  let r1 := l.takeWhile isAddrChar
  match l.dropWhile isAddrChar with
  | [] => none
  | c :: rest2 =>
    if isAtChar c then
      let r2 := rest2.takeWhile isAddrChar
      if r1.isEmpty ∨ r2.isEmpty then none else some (r1 ++ c :: r2)
    else none

/-- Model of `re.find`: the match at the leftmost start position,
scanning left to right. -/
def findAddr : Str → Option Str
  | [] => none
  | c :: rest =>
    match matchAt (c :: rest) with
    | some m => some m
    | none => findAddr rest

/-- Model of `to_lowercase` on a string (ASCII fragment). -/
def lowerStr (s : Str) : Str :=
  s.map toLowerChar

/-- The address extractor: first regex match, lower-cased;
`None` when the pattern does not occur.  Totality of this function is the
model of "never panics on malformed input". -/
def extract (raw : Str) : Option Str :=
  (findAddr raw).map lowerStr

/-! ### Remote message data (google_gmail1 types as consumed by main.rs) -/

/-- Error type of the Gmail API calls (`google_gmail1::Error`), opaque to
this program beyond being printable. -/
structure ApiError where
  msg : Str
deriving DecidableEq

/-- One entry of `payload.headers`: `MessagePartHeader { name, value }`,
both fields optional. -/
structure MessagePartHeader where
  name : Option Str
  value : Option Str
deriving DecidableEq

/-- The `payload` of a fetched message: optional `headers` list. -/
structure MessagePart where
  headers : Option (List MessagePartHeader)
deriving DecidableEq

/-- A fetched message: optional `payload`. -/
structure Message where
  payload : Option MessagePart
deriving DecidableEq

/-- Model of `name.as_deref().unwrap_or("").eq_ignore_ascii_case("from")`
(src/main.rs line 123): a missing name is treated as `""`, and the
comparison is ASCII case-insensitive. -/
def isFromName (n : Option Str) : Bool :=
  decide (lowerStr (n.getD []) = "from".data)

/-- Body of the header loop (src/main.rs lines 122-131): if the header's
name is "From" (case-insensitive), its value is present, and the regex
finds a match, record the lower-cased match; otherwise leave the tally
unchanged. -/
def processHeader (t : Tally) (h : MessagePartHeader) : Tally :=
  if isFromName h.name then
    match h.value with
    | some v =>
      match findAddr v with
      | some m => record t (lowerStr m)
      | none => t
    | none => t
  else t

/-- Processing of one successfully fetched message (src/main.rs lines
119-134): iterate over `payload.headers`; a missing payload or missing
headers list contributes nothing. -/
def processMessage (t : Tally) (msg : Message) : Tally :=
  match msg.payload with
  | some p =>
    match p.headers with
    | some hs => hs.foldl processHeader t
    | none => t
  | none => t

/-- Observation: the address a single header records, if any. -/
def headerAddr? (h : MessagePartHeader) : Option Str :=
  if isFromName h.name then (h.value.bind findAddr).map lowerStr else none

/-- Observation: whether a single header produces an increment. -/
def headerMatches (h : MessagePartHeader) : Bool :=
  isFromName h.name && (h.value.bind findAddr).isSome

/-- Headers of a message (empty when payload or headers are absent). -/
def msgHeaders (msg : Message) : List MessagePartHeader :=
  match msg.payload with
  | some p => p.headers.getD []
  | none => []

/-- Addresses recorded for one message, in header order. -/
def msgAddrs (msg : Message) : List Str :=
  (msgHeaders msg).filterMap headerAddr?

/-- Number of "From" headers of the message whose value matches the
pattern. -/
def msgMatchCount (msg : Message) : Nat :=
  (msgHeaders msg).countP headerMatches

/-- Whether at least one "From" header of the message matched. -/
def msgHasMatch (msg : Message) : Bool :=
  decide (msgMatchCount msg ≠ 0)

/-- Number of messages whose "From" header matched (any address). -/
def messagesMatched (msgs : List Message) : Nat :=
  msgs.countP msgHasMatch

/-- Number of messages one of whose "From" headers matched address `a`. -/
def messagesMatchedTo (msgs : List Message) (a : Str) : Nat :=
  msgs.countP (fun m => decide (a ∈ msgAddrs m))

/-- Tally after processing the fetched messages `msgs`, starting empty. -/
def tallyAfter (msgs : List Message) : Tally :=
  msgs.foldl processMessage []

/-! ### The fetch phase (src/main.rs lines 92-148) -/

/-- State threaded through the fetch loop: the shared tally and the
stream of `eprintln!` failure lines, each carrying the message id and the
error (src/main.rs line 137). -/
structure RunState where
  tally : Tally
  errLog : List (Str × ApiError)
deriving DecidableEq

/-- One iteration of `for msg_id in &batch` (src/main.rs lines 110-139):
fetch the message's "From" metadata; on success merge its headers into
the tally, on failure log the id together with the error and skip the
item. -/
def processId (fetch : Str → Except ApiError Message) (st : RunState) (msgId : Str) :
    RunState :=
  match fetch msgId with
  | .ok message => { st with tally := processMessage st.tally message }
  | .error e => { st with errLog := st.errLog ++ [(msgId, e)] }

/-- One batch body: process its ids in order. -/
def processBatch (fetch : Str → Except ApiError Message) (st : RunState)
    (batch : List Str) : RunState :=
  batch.foldl (processId fetch) st

/-- Model of `message_ids.chunks(BATCH_SIZE)` (src/main.rs lines 93-96):
consecutive slices of `n` elements, the last possibly shorter. -/
def chunksOf (n : Nat) (l : List α) : List (List α) :=
  match l with
  | [] => []
  | x :: xs => (x :: xs.take (n - 1)) :: chunksOf n (xs.drop (n - 1))
termination_by l.length
decreasing_by
  simp [List.length_drop]
  omega

/-- Serialized execution of the whole fetch phase, batch by batch.  The
mutex around the tally and the join performed by `for_each_concurrent`
make any concurrent schedule observationally a serialization; the
interleaving-independence of the final tally is proved separately at the
`record` level. -/
def runBatches (fetch : Str → Except ApiError Message) (ids : List Str) : RunState :=
  (chunksOf BATCH_SIZE ids).foldl (processBatch fetch) ⟨[], []⟩

/-- The same fetch phase, id by id. -/
def processAll (fetch : Str → Except ApiError Message) (ids : List Str) : RunState :=
  ids.foldl (processId fetch) ⟨[], []⟩

/-- Dispatch record of the fetch phase: each batch resolves each of its
ids with its fetch outcome, in order. -/
def resolutions (fetch : Str → Except ApiError Message) (ids : List Str) :
    List (Str × Except ApiError Message) :=
  ((chunksOf BATCH_SIZE ids).map (fun b => b.map (fun i => (i, fetch i)))).flatten

/-- Messages of the successful fetches, in processing order. -/
def successes (fetch : Str → Except ApiError Message) (ids : List Str) : List Message :=
  ids.filterMap (fun i => (fetch i).toOption)

/-- The failure log the run prints: one entry per failed fetch. -/
def failures (fetch : Str → Except ApiError Message) (ids : List Str) :
    List (Str × ApiError) :=
  ids.filterMap (fun i =>
    match fetch i with
    | .ok _ => none
    | .error e => some (i, e))

/-- Number of ids whose fetch fails. -/
def failCount (fetch : Str → Except ApiError Message) (ids : List Str) : Nat :=
  ids.countP (fun i =>
    match fetch i with
    | .ok _ => false
    | .error _ => true)

/-! ### Listing (src/main.rs lines 44-75) -/

/-- One response of `users().messages_list`: the optional `messages`
array (modelled by each entry's optional `id`) and the optional
`next_page_token`. -/
structure ListResponse where
  messages : Option (List (Option Str))
  nextPageToken : Option Str
deriving DecidableEq

/-- Model of `messages.into_iter().filter_map(|m| m.id)` (src/main.rs
line 66); a missing `messages` array contributes nothing (line 65). -/
def pageIds (r : ListResponse) : List Str :=
  (r.messages.getD []).filterMap id

/-- The listing loop (src/main.rs lines 57-75) against a mocked endpoint
serving the given responses in order.  Returns the accumulated ids and
the trace of calls made, each as `(max_results, page_token)`; the loop
exits after consuming a response without `next_page_token`. -/
def listLoop (tok : Option Str) : List ListResponse → (List Str × List (Nat × Option Str))
  | [] => ([], [])
  | r :: rest =>
    match r.nextPageToken with
    | none => (pageIds r, [(500, tok)])
    | some t =>
      let x := listLoop (some t) rest
      (pageIds r ++ x.1, (500, tok) :: x.2)

/-- Shape of a mocked endpoint with K pages of which exactly the last
lacks a continuation token. -/
def onlyLastLacksToken : List ListResponse → Bool
  | [] => false
  | [r] => r.nextPageToken.isNone
  | r :: rest => r.nextPageToken.isSome && onlyLastLacksToken rest

/-- The listing loop when each page call may fail: `.doit().await?`
(src/main.rs line 63) propagates the first error, aborting the loop. -/
def listLoopE (_tok : Option Str) :
    List (Except ApiError ListResponse) → Except ApiError (List Str)
  | [] => .ok []
  | .error e :: _ => .error e
  | .ok r :: rest =>
    match r.nextPageToken with
    | none => .ok (pageIds r)
    | some t =>
      match listLoopE (some t) rest with
      | .ok ids => .ok (pageIds r ++ ids)
      | .error e => .error e

/-- The whole program (`main`): a failing listing call terminates the run
with that error before any fetching (the `?` operator); otherwise the
fetch phase runs over the listed ids and produces the final state (tally
written to CSV, plus the failure log). -/
def runProgram (listing : List (Except ApiError ListResponse))
    (fetch : Str → Except ApiError Message) : Except ApiError RunState :=
  match listLoopE none listing with
  | .error e => .error e
  | .ok ids => .ok (runBatches fetch ids)

/-! ### The scheduler as a transition system (src/main.rs lines 101-146)

`stream::iter(batches).for_each_concurrent(MAX_PARALLEL_BATCHES, ..)`
polls at most `MAX_PARALLEL_BATCHES` batch futures concurrently; inside a
batch the ids are fetched strictly sequentially (`.await` inside a `for`
loop), so each active batch has at most one fetch in flight. -/

/-- An active batch future: ids still to fetch, and whether a fetch call
of this batch is currently awaited. -/
structure ActiveBatch where
  remaining : List Str
  inFlight : Bool

/-- Scheduler state: batches not yet started, and active batch futures. -/
structure SchedState where
  queued : List (List Str)
  active : List ActiveBatch

/-- Number of fetch operations currently in flight. -/
def inFlightFetches (s : SchedState) : Nat :=
  s.active.countP (fun b => b.inFlight)

/-- Initial scheduler state: all batches queued, none active. -/
def initState (ids : List Str) : SchedState :=
  { queued := chunksOf BATCH_SIZE ids, active := [] }

/-- Interleaving semantics of the bounded pool: a queued batch starts
only while fewer than `MAX_PARALLEL_BATCHES` are active (the semantics of
`for_each_concurrent`'s limit); an active batch alternates begin/end of
one fetch over its remaining ids and leaves when done (the pacing sleep
keeps no fetch in flight). -/
inductive SchedStep : SchedState → SchedState → Prop
  | start (s : SchedState) (b : List Str) (rest : List (List Str))
      (hq : s.queued = b :: rest) (hlt : s.active.length < MAX_PARALLEL_BATCHES) :
      SchedStep s { queued := rest, active := s.active ++ [⟨b, false⟩] }
  | beginFetch (s : SchedState) (i : Nat) (hi : i < s.active.length)
      (hb : (s.active.get ⟨i, hi⟩).inFlight = false)
      (hr : (s.active.get ⟨i, hi⟩).remaining ≠ []) :
      SchedStep s { s with active := s.active.set i ⟨(s.active.get ⟨i, hi⟩).remaining, true⟩ }
  | endFetch (s : SchedState) (i : Nat) (hi : i < s.active.length)
      (hb : (s.active.get ⟨i, hi⟩).inFlight = true) :
      SchedStep s { s with active := s.active.set i ⟨(s.active.get ⟨i, hi⟩).remaining.tail, false⟩ }
  | finish (s : SchedState) (i : Nat) (hi : i < s.active.length)
      (hb : (s.active.get ⟨i, hi⟩).inFlight = false)
      (hr : (s.active.get ⟨i, hi⟩).remaining = []) :
      SchedStep s { s with active := s.active.eraseIdx i }

/-- States the scheduler can reach from the initial state for `ids`. -/
inductive Reachable (ids : List Str) : SchedState → Prop
  | init : Reachable ids (initState ids)
  | step {s s2 : SchedState} : Reachable ids s → SchedStep s s2 → Reachable ids s2

/-! ### Concrete inputs used by witnesses and counterexamples -/

/-- A "From" header whose value is `a@b`. -/
def fromHeaderAB : MessagePartHeader :=
  { name := some "From".data, value := some "a@b".data }

/-- A message carrying the same "From" header twice. -/
def twoFromMessage : Message :=
  { payload := some { headers := some [fromHeaderAB, fromHeaderAB] } }

/-- A fetch environment in which every fetch fails. -/
def failingFetch : Str → Except ApiError Message :=
  fun _ => .error { msg := "quota".data }

/-- A fetch environment in which every fetch yields `twoFromMessage`. -/
def okFetch : Str → Except ApiError Message :=
  fun _ => .ok twoFromMessage

/-- A first mocked listing page, with one malformed entry and a
continuation token. -/
def mockPage1 : ListResponse :=
  { messages := some [some "a".data, none, some "b".data],
    nextPageToken := some "t1".data }

/-- A final mocked listing page without continuation token. -/
def mockPage2 : ListResponse :=
  { messages := some [some "c".data], nextPageToken := none }

theorem tallyGet_record_self (m : Tally) (a : Str) :
    tallyGet (record m a) a = tallyGet m a + 1 := by
  induction m with
  | nil => simp [record, tallyGet]
  | cons kv rest ih =>
    obtain ⟨k, v⟩ := kv
    by_cases h : k = a <;> simp [record, tallyGet, h, ih]

theorem tallyGet_record_other (m : Tally) (a b : Str) (hne : b ≠ a) :
    tallyGet (record m b) a = tallyGet m a := by
  induction m with
  | nil =>
    have : ¬ b = a := hne
    simp [record, tallyGet, this]
  | cons kv rest ih =>
    obtain ⟨k, v⟩ := kv
    by_cases h : k = b
    · subst h
      simp [record, tallyGet, hne]
    · have hab : ¬ a = b := fun hh => hne hh.symm
      by_cases h2 : k = a <;> simp [record, tallyGet, h, h2, hab, ih]

theorem tallySum_record (m : Tally) (a : Str) :
    tallySum (record m a) = tallySum m + 1 := by
  induction m with
  | nil => simp [record, tallySum]
  | cons kv rest ih =>
    obtain ⟨k, v⟩ := kv
    by_cases h : k = a <;> simp [record, tallySum, h] at *
    · omega
    · omega

theorem tallyGet_recordAll (m : Tally) (calls : List Str) (a : Str) :
    tallyGet (recordAll m calls) a = tallyGet m a + calls.count a := by
  induction calls generalizing m with
  | nil => simp [recordAll]
  | cons c rest ih =>
    show tallyGet (recordAll (record m c) rest) a = _
    rw [ih]
    by_cases h : c = a
    · subst h
      rw [tallyGet_record_self]
      simp [List.count_cons]
      omega
    · rw [tallyGet_record_other _ _ _ h]
      simp [List.count_cons, h]

theorem tallySum_recordAll (m : Tally) (calls : List Str) :
    tallySum (recordAll m calls) = tallySum m + calls.length := by
  induction calls generalizing m with
  | nil => simp [recordAll]
  | cons c rest ih =>
    simp [recordAll, List.foldl_cons] at *
    rw [ih, tallySum_record]
    omega

theorem toNat_ofNat_valid (n : Nat) (h : n.isValidChar) :
    (Char.ofNat n).toNat = n := by
  rw [Char.ofNat, dif_pos h]
  simp [Char.ofNatAux, Char.toNat, UInt32.toNat]

theorem toNat_toLowerChar (c : Char) :
    (toLowerChar c).toNat =
      if 65 ≤ c.toNat ∧ c.toNat ≤ 90 then c.toNat + 32 else c.toNat := by
  unfold toLowerChar
  by_cases h : 65 ≤ c.toNat ∧ c.toNat ≤ 90
  · rw [if_pos h, if_pos h]
    exact toNat_ofNat_valid _ (Or.inl (by omega))
  · rw [if_neg h, if_neg h]

theorem isAddrChar_toLowerChar (c : Char) :
    isAddrChar (toLowerChar c) = isAddrChar c := by
  unfold isAddrChar
  rw [decide_eq_decide, toNat_toLowerChar]
  split <;> omega

theorem isAtChar_toLowerChar (c : Char) :
    isAtChar (toLowerChar c) = isAtChar c := by
  unfold isAtChar
  rw [decide_eq_decide, toNat_toLowerChar]
  split <;> omega

theorem toLowerChar_toLowerChar (c : Char) :
    toLowerChar (toLowerChar c) = toLowerChar c := by
  have h2 : ¬ (65 ≤ (toLowerChar c).toNat ∧ (toLowerChar c).toNat ≤ 90) := by
    rw [toNat_toLowerChar]
    split <;> omega
  conv_lhs => rw [toLowerChar]
  rw [if_neg h2]

theorem addrChar_comp_lower : (isAddrChar ∘ toLowerChar) = isAddrChar :=
  funext isAddrChar_toLowerChar

theorem isEmpty_map (f : Char → Char) (l : List Char) :
    (l.map f).isEmpty = l.isEmpty := by
  cases l <;> rfl

theorem matchAt_lowerStr (l : Str) :
    matchAt (lowerStr l) = (matchAt l).map lowerStr := by
  unfold matchAt lowerStr
  rw [List.takeWhile_map, List.dropWhile_map, addrChar_comp_lower]
  cases hd : l.dropWhile isAddrChar with
  | nil => simp
  | cons c rest2 =>
    simp only [List.map_cons]
    rw [isAtChar_toLowerChar]
    by_cases hat : isAtChar c
    · simp only [hat, if_true]
      rw [List.takeWhile_map, addrChar_comp_lower]
      simp only [isEmpty_map]
      by_cases he : (l.takeWhile isAddrChar).isEmpty = true ∨
          (rest2.takeWhile isAddrChar).isEmpty = true
      · rw [if_pos he, if_pos he]
        rfl
      · rw [if_neg he, if_neg he]
        simp [List.map_append]
    · simp [hat]

theorem findAddr_lowerStr (l : Str) :
    findAddr (lowerStr l) = (findAddr l).map lowerStr := by
  induction l with
  | nil => rfl
  | cons c rest ih =>
    have hm := matchAt_lowerStr (c :: rest)
    show findAddr (lowerStr (c :: rest)) = _
    unfold findAddr
    cases h : matchAt (c :: rest) with
    | some m =>
      rw [h] at hm
      simp only [lowerStr, List.map_cons] at hm ⊢
      rw [hm]
      simp [h]
    | none =>
      rw [h] at hm
      simp only [lowerStr, List.map_cons] at hm ⊢
      rw [hm]
      simpa [h, lowerStr] using ih

theorem lowerStr_lowerStr (s : Str) : lowerStr (lowerStr s) = lowerStr s := by
  simp [lowerStr, List.map_map, Function.comp, toLowerChar_toLowerChar]

theorem extract_lowerStr (s : Str) : extract (lowerStr s) = extract s := by
  unfold extract
  rw [findAddr_lowerStr]
  cases findAddr s <;> simp [lowerStr_lowerStr]

theorem findAddr_none (s : Str) (h : findAddr s = none) :
    ∀ p, matchAt (s.drop p) = none := by
  induction s with
  | nil =>
    intro p
    cases p <;> rfl
  | cons c rest ih =>
    intro p
    unfold findAddr at h
    cases hm : matchAt (c :: rest) with
    | some m =>
      rw [hm] at h
      exact absurd h (by simp)
    | none =>
      rw [hm] at h
      cases p with
      | zero => simpa using hm
      | succ q => simpa using ih h q

theorem findAddr_some (s : Str) (m : Str) (h : findAddr s = some m) :
    ∃ p, matchAt (s.drop p) = some m ∧ ∀ q, q < p → matchAt (s.drop q) = none := by
  induction s generalizing m with
  | nil => cases h
  | cons c rest ih =>
    unfold findAddr at h
    cases hm : matchAt (c :: rest) with
    | some m0 =>
      rw [hm] at h
      obtain rfl : m0 = m := by
        simpa using h
      exact ⟨0, by simpa using hm, fun q hq => absurd hq (Nat.not_lt_zero q)⟩
    | none =>
      rw [hm] at h
      obtain ⟨p, hp, hlt⟩ := ih m h
      refine ⟨p + 1, by simpa using hp, ?_⟩
      intro q hq
      cases q with
      | zero => simpa using hm
      | succ q2 => simpa using hlt q2 (by omega)

theorem exceptToOption_ok (a : α) : (Except.ok a : Except ApiError α).toOption = some a :=
  rfl

theorem exceptToOption_error (e : ApiError) :
    (Except.error e : Except ApiError α).toOption = none :=
  rfl

theorem processHeader_eq_headerAddr (t : Tally) (h : MessagePartHeader) :
    processHeader t h =
      match headerAddr? h with
      | some a => record t a
      | none => t := by
  cases hf : isFromName h.name
  · simp [processHeader, headerAddr?, hf]
  · cases hv : h.value with
    | none => simp [processHeader, headerAddr?, hf, hv]
    | some v => cases hm : findAddr v <;> simp [processHeader, headerAddr?, hf, hv, hm]

theorem headerMatches_eq_isSome (h : MessagePartHeader) :
    headerMatches h = (headerAddr? h).isSome := by
  cases hf : isFromName h.name <;> cases hv : h.value <;>
    simp [headerMatches, headerAddr?, hf, hv]

theorem foldl_processHeader (hs : List MessagePartHeader) (t : Tally) :
    hs.foldl processHeader t = recordAll t (hs.filterMap headerAddr?) := by
  induction hs generalizing t with
  | nil => rfl
  | cons h rest ih =>
    rw [List.foldl_cons, processHeader_eq_headerAddr]
    cases ha : headerAddr? h
    · simp [ha, List.filterMap_cons, ih]
    · simp [ha, List.filterMap_cons, ih, recordAll]

theorem processMessage_eq_recordAll (t : Tally) (msg : Message) :
    processMessage t msg = recordAll t (msgAddrs msg) := by
  obtain ⟨payload⟩ := msg
  cases payload with
  | none => rfl
  | some p =>
    obtain ⟨headers⟩ := p
    cases headers with
    | none => rfl
    | some hs =>
      simpa [processMessage, msgAddrs, msgHeaders] using foldl_processHeader hs t

theorem length_filterMap_headerAddr (hs : List MessagePartHeader) :
    (hs.filterMap headerAddr?).length = hs.countP headerMatches := by
  induction hs with
  | nil => rfl
  | cons h rest ih =>
    rw [List.filterMap_cons, List.countP_cons]
    cases ha : headerAddr? h <;> simp [headerMatches_eq_isSome, ha, ih]

theorem length_msgAddrs (msg : Message) :
    (msgAddrs msg).length = msgMatchCount msg :=
  length_filterMap_headerAddr (msgHeaders msg)

theorem tallySum_processMessage (t : Tally) (msg : Message) :
    tallySum (processMessage t msg) = tallySum t + msgMatchCount msg := by
  rw [processMessage_eq_recordAll, tallySum_recordAll, length_msgAddrs]

theorem tallyGet_processMessage (t : Tally) (msg : Message) (a : Str) :
    tallyGet (processMessage t msg) a = tallyGet t a + (msgAddrs msg).count a := by
  rw [processMessage_eq_recordAll, tallyGet_recordAll]

theorem tallySum_foldl_messages (msgs : List Message) (t : Tally) :
    tallySum (msgs.foldl processMessage t) = tallySum t + (msgs.map msgMatchCount).sum := by
  induction msgs generalizing t with
  | nil => simp
  | cons m rest ih =>
    rw [List.foldl_cons, ih, tallySum_processMessage]
    simp
    omega

theorem tallyGet_foldl_messages (msgs : List Message) (t : Tally) (a : Str) :
    tallyGet (msgs.foldl processMessage t) a =
      tallyGet t a + (msgs.map (fun m => (msgAddrs m).count a)).sum := by
  induction msgs generalizing t with
  | nil => simp
  | cons m rest ih =>
    rw [List.foldl_cons, ih, tallyGet_processMessage]
    simp
    omega

theorem foldl_processId (fetch : Str → Except ApiError Message) (ids : List Str)
    (st : RunState) :
    ids.foldl (processId fetch) st =
      { tally := (successes fetch ids).foldl processMessage st.tally,
        errLog := st.errLog ++ failures fetch ids } := by
  induction ids generalizing st with
  | nil => simp [successes, failures]
  | cons i rest ih =>
    cases hf : fetch i with
    | ok m =>
      simp [List.foldl_cons, processId, hf, successes, failures, List.filterMap_cons,
        Except.toOption, ih]
    | error e =>
      simp [List.foldl_cons, processId, hf, successes, failures, List.filterMap_cons,
        Except.toOption, ih]

theorem successes_failures_length (fetch : Str → Except ApiError Message) (ids : List Str) :
    (successes fetch ids).length + failCount fetch ids = ids.length := by
  induction ids with
  | nil => rfl
  | cons i rest ih =>
    have ih2 := ih
    simp only [successes, failCount] at ih2
    simp only [successes, failCount, List.filterMap_cons, List.countP_cons]
    cases hf : fetch i <;> simp [hf, exceptToOption_ok, exceptToOption_error] <;> omega

theorem length_failures (fetch : Str → Except ApiError Message) (ids : List Str) :
    (failures fetch ids).length = failCount fetch ids := by
  induction ids with
  | nil => rfl
  | cons i rest ih =>
    have ih2 := ih
    simp only [failures, failCount] at ih2
    simp only [failures, failCount, List.filterMap_cons, List.countP_cons]
    cases hf : fetch i <;> simp [hf] <;> omega

theorem chunksOf_nil (n : Nat) : chunksOf n ([] : List α) = [] := by
  rw [chunksOf]

theorem chunksOf_cons (n : Nat) (x : α) (xs : List α) :
    chunksOf n (x :: xs) = (x :: xs.take (n - 1)) :: chunksOf n (xs.drop (n - 1)) := by
  rw [chunksOf]

theorem flatten_chunksOf (n : Nat) (l : List α) : (chunksOf n l).flatten = l := by
  induction l using chunksOf.induct n with
  | case1 =>
    rw [chunksOf_nil]
    rfl
  | case2 x xs ih =>
    rw [chunksOf_cons, List.flatten_cons, ih]
    simp [List.cons_append, List.take_append_drop]

theorem mem_chunksOf (n : Nat) (hn : 1 ≤ n) (l : List α) :
    ∀ b ∈ chunksOf n l, b ≠ [] ∧ b.length ≤ n := by
  induction l using chunksOf.induct n with
  | case1 =>
    intro b hb
    rw [chunksOf_nil] at hb
    cases hb
  | case2 x xs ih =>
    intro b hb
    rw [chunksOf_cons] at hb
    rcases List.mem_cons.mp hb with h | h
    · subst h
      refine ⟨by simp, ?_⟩
      simp [List.length_take]
      omega
    · exact ih b h

theorem chunksOf_eq_nil_iff (n : Nat) (l : List α) : chunksOf n l = [] ↔ l = [] := by
  cases l
  · simp [chunksOf_nil]
  · simp [chunksOf_cons]

theorem chunksOf_full (n : Nat) (hn : 1 ≤ n) (l : List α) :
    ∀ i, i + 1 < (chunksOf n l).length → ((chunksOf n l).getD i []).length = n := by
  induction l using chunksOf.induct n with
  | case1 =>
    intro i hi
    rw [chunksOf_nil] at hi
    simp at hi
  | case2 x xs ih =>
    intro i hi
    rw [chunksOf_cons] at hi ⊢
    cases i with
    | zero =>
      have hne : chunksOf n (xs.drop (n - 1)) ≠ [] := by
        intro h0
        rw [h0] at hi
        simp at hi
      have hrest : xs.drop (n - 1) ≠ [] := by
        intro h0
        exact hne (by rw [h0, chunksOf_nil])
      have hlen : n - 1 ≤ xs.length := by
        by_contra h0
        push_neg at h0
        exact hrest (List.drop_eq_nil_of_le (by omega))
      simp [List.length_take]
      omega
    | succ j =>
      simp only [List.getD_cons_succ]
      apply ih
      simp at hi
      simpa using hi

theorem foldl_processBatch_flatten (fetch : Str → Except ApiError Message)
    (L : List (List Str)) (st : RunState) :
    L.foldl (processBatch fetch) st = L.flatten.foldl (processId fetch) st := by
  induction L generalizing st with
  | nil => rfl
  | cons b rest ih =>
    rw [List.foldl_cons, List.flatten_cons, List.foldl_append]
    exact ih _

theorem runBatches_eq_processAll (fetch : Str → Except ApiError Message) (ids : List Str) :
    runBatches fetch ids = processAll fetch ids := by
  unfold runBatches processAll
  rw [foldl_processBatch_flatten, flatten_chunksOf]

theorem resolutions_map_fst (fetch : Str → Except ApiError Message) (ids : List Str) :
    (resolutions fetch ids).map Prod.fst = ids := by
  unfold resolutions
  rw [← List.map_flatten, flatten_chunksOf, List.map_map]
  have hcomp : (Prod.fst ∘ fun i : Str => (i, fetch i)) = id := rfl
  rw [hcomp, List.map_id]

theorem listLoop_cons_none (tok : Option Str) (r : ListResponse)
    (rest : List ListResponse) (ht : r.nextPageToken = none) :
    listLoop tok (r :: rest) = (pageIds r, [(500, tok)]) := by
  simp only [listLoop, ht]

theorem listLoop_cons_some (tok : Option Str) (r : ListResponse)
    (rest : List ListResponse) (t : Str) (ht : r.nextPageToken = some t) :
    listLoop tok (r :: rest) =
      (pageIds r ++ (listLoop (some t) rest).1, (500, tok) :: (listLoop (some t) rest).2) := by
  simp only [listLoop, ht]

theorem listLoop_spec (tok : Option Str) (responses : List ListResponse)
    (h : onlyLastLacksToken responses = true) :
    listLoop tok responses =
      ((responses.map pageIds).flatten,
        (tok :: responses.dropLast.map (fun r => r.nextPageToken)).map
          (fun t => ((500 : Nat), t))) := by
  induction responses generalizing tok with
  | nil => simp [onlyLastLacksToken] at h
  | cons r rest ih =>
    cases rest with
    | nil =>
      have hnone : r.nextPageToken = none := by
        simpa [onlyLastLacksToken, Option.isNone_iff_eq_none] using h
      rw [listLoop_cons_none tok r _ hnone]
      simp
    | cons r2 rest2 =>
      have h2 : r.nextPageToken.isSome = true ∧ onlyLastLacksToken (r2 :: rest2) = true := by
        simpa [onlyLastLacksToken] using h
      obtain ⟨t, ht⟩ := Option.isSome_iff_exists.mp h2.1
      rw [listLoop_cons_some tok r _ t ht, ih (some t) h2.2]
      simp [ht, List.dropLast]

theorem listLoopE_cons_ok_some (tok : Option Str) (r : ListResponse)
    (rest : List (Except ApiError ListResponse)) (t : Str)
    (ht : r.nextPageToken = some t) :
    listLoopE tok (.ok r :: rest) =
      match listLoopE (some t) rest with
      | .ok ids => .ok (pageIds r ++ ids)
      | .error e2 => .error e2 := by
  simp only [listLoopE, ht]

theorem listLoopE_error (good : List ListResponse) (e : ApiError)
    (rest : List (Except ApiError ListResponse)) :
    ∀ tok, (∀ r ∈ good, r.nextPageToken.isSome = true) →
      listLoopE tok (good.map Except.ok ++ Except.error e :: rest) = .error e := by
  induction good with
  | nil =>
    intro tok h
    rfl
  | cons r gs ih =>
    intro tok h
    obtain ⟨t, ht⟩ := Option.isSome_iff_exists.mp (h r (by simp))
    have htail : ∀ r2 ∈ gs, r2.nextPageToken.isSome = true := fun r2 hr2 =>
      h r2 (by simp [hr2])
    simp only [List.map_cons, List.cons_append]
    rw [listLoopE_cons_ok_some tok r _ t ht, ih (some t) htail]

theorem active_length_le (ids : List Str) (s : SchedState)
    (h : Reachable ids s) : s.active.length ≤ MAX_PARALLEL_BATCHES := by
  induction h with
  | init => simp [initState, MAX_PARALLEL_BATCHES]
  | step hr hs ih =>
    rename_i s s2
    cases hs with
    | start b rest hq hlt =>
      simp only [List.length_append, List.length_cons, List.length_nil]
      omega
    | beginFetch i hi hb hrr => simpa [List.length_set] using ih
    | endFetch i hi hb => simpa [List.length_set] using ih
    | finish i hi hb hrr =>
      simp only [List.length_eraseIdx, if_pos hi]
      omega

/-! ### The claims -/

/-- C1: under any concurrent interleaving of the `record` calls made by
fetch completions, the final snapshot maps each normalized address to
exactly the number of `record` calls made for it; `record` increments the
count of its address by one (an absent entry starting from zero), and no
increment is lost or duplicated. -/
theorem claim_c1_snapshot_exact (calls interleaving : List Str) (a : Str)
    (h : interleaving.Perm calls) :
    tallyGet (recordAll [] interleaving) a = calls.count a ∧
    ∀ (t : Tally) (b : Str), tallyGet (record t b) b = tallyGet t b + 1 := by
  constructor
  · rw [tallyGet_recordAll]
    rw [List.count_eq_countP, List.count_eq_countP, h.countP_eq]
    simp [tallyGet]
  · intro t b
    exact tallyGet_record_self t b

/-- Witness for C1: a concrete interleaving of three record calls. -/
theorem claim_c1_snapshot_exact_witness :
    tallyGet (recordAll [] ["b@y".data, "a@x".data, "a@x".data]) ("a@x".data) =
      (["a@x".data, "a@x".data, "b@y".data] : List Str).count ("a@x".data) :=
  (claim_c1_snapshot_exact ["a@x".data, "a@x".data, "b@y".data]
    ["b@y".data, "a@x".data, "a@x".data] ("a@x".data) (by decide)).1

/-- C2 counterexample: the program's final result does not report
`{total_ids, fetched_ok, fetched_failed, senders_extracted}`.  A run over
one identifier whose fetch fails produces exactly the same tally — the
only data the program returns (written to CSV) — as a run over zero
identifiers with zero failures, so no statistic of the result can equal
the failure count; the failure is visible only in the `eprintln!` log. -/
theorem claim_c2_counterexample :
    (runBatches failingFetch ["a".data]).tally = (runBatches failingFetch []).tally ∧
    failCount failingFetch ["a".data] = 1 ∧
    failCount failingFetch [] = 0 ∧
    (runBatches failingFetch ["a".data]).errLog.length = 1 := by
  rw [runBatches_eq_processAll, runBatches_eq_processAll]
  decide

/-- C2 amended: the run completes over all `M` identifiers; each per-item
fetch failure is only logged (one `eprintln!` line per failure) and the
item skipped; with `F` failures the log has exactly `F` entries, there
are `M - F` successful fetches, and the tally is built from the
successful fetches alone.  No `RunStats` value is computed or returned;
the batched execution equals the sequential one. -/
theorem claim_c2_amended (fetch : Str → Except ApiError Message) (ids : List Str) :
    (processAll fetch ids).errLog = failures fetch ids ∧
    (processAll fetch ids).errLog.length = failCount fetch ids ∧
    (successes fetch ids).length = ids.length - failCount fetch ids ∧
    (processAll fetch ids).tally = tallyAfter (successes fetch ids) ∧
    runBatches fetch ids = processAll fetch ids := by
  have hsplit := foldl_processId fetch ids ⟨[], []⟩
  have hlen := successes_failures_length fetch ids
  refine ⟨?_, ?_, by omega, ?_, runBatches_eq_processAll fetch ids⟩
  · rw [processAll, hsplit]
    rfl
  · rw [processAll, hsplit]
    exact length_failures fetch ids
  · rw [processAll, hsplit]
    rfl

/-- C3: against a mocked listing endpoint whose K responses all carry a
next-page token except the last, the Lister makes exactly K calls, each
with `max_results` 500 and the previous response's token (none on the
first call), filters out entries with a missing id, and returns the
concatenation of the pages' ids in page order. -/
theorem claim_c3_lister (responses : List ListResponse)
    (h : onlyLastLacksToken responses = true) :
    (listLoop none responses).1 = (responses.map pageIds).flatten ∧
    (listLoop none responses).2.length = responses.length ∧
    (∀ c ∈ (listLoop none responses).2, c.1 = 500) ∧
    (listLoop none responses).2.map Prod.snd =
      none :: responses.dropLast.map (fun r => r.nextPageToken) := by
  rw [listLoop_spec none responses h]
  refine ⟨rfl, ?_, ?_, ?_⟩
  · have hd : responses.dropLast.length = responses.length - 1 :=
      List.length_dropLast responses
    have hne : responses ≠ [] := by
      intro h0
      rw [h0] at h
      simp [onlyLastLacksToken] at h
    have : 1 ≤ responses.length := by
      cases responses
      · exact absurd rfl hne
      · simp
    simp [hd]
    omega
  · intro c hc
    obtain ⟨t, _, rfl⟩ := List.mem_map.mp hc
    rfl
  · rw [List.map_map]
    have hcomp : (Prod.snd ∘ fun t : Option Str => ((500 : Nat), t)) = id := rfl
    rw [List.map_cons]
    simp [hcomp]

/-- Witness for C3: two mocked pages, the first with a malformed entry. -/
theorem claim_c3_lister_witness :
    (listLoop none [mockPage1, mockPage2]).1 =
      ([mockPage1, mockPage2].map pageIds).flatten ∧
    (listLoop none [mockPage1, mockPage2]).2.length = 2 :=
  ⟨(claim_c3_lister [mockPage1, mockPage2] (by decide)).1,
   (claim_c3_lister [mockPage1, mockPage2] (by decide)).2.1⟩

/-- C4 counterexample: a message carrying two "From" headers for `a@b`
contributes two increments, so the tally's sum (2) exceeds the number of
successfully fetched and header-matched messages (1), and the count
stored for `a@b` (2) differs from the number of messages whose "From"
header matched that address (1). -/
theorem claim_c4_counterexample :
    ¬ (tallySum (tallyAfter [twoFromMessage]) ≤ messagesMatched [twoFromMessage]) ∧
    tallyGet (tallyAfter [twoFromMessage]) ("a@b".data) = 2 ∧
    messagesMatchedTo [twoFromMessage] ("a@b".data) = 1 := by
  decide

/-- C4 amended: at every point of the run (after any list of successfully
fetched messages), the sum of all counts equals the number of matching
"From"-header occurrences across those messages — and can therefore
exceed the number of matched messages when one message carries several
"From" headers — and the count stored for an address equals the number of
header occurrences whose extracted address is that address. -/
theorem claim_c4_amended (msgs : List Message) (a : Str) :
    tallySum (tallyAfter msgs) = (msgs.map msgMatchCount).sum ∧
    tallyGet (tallyAfter msgs) a = (msgs.map (fun m => (msgAddrs m).count a)).sum := by
  constructor
  · have h := tallySum_foldl_messages msgs []
    simpa [tallyAfter, tallySum] using h
  · have h := tallyGet_foldl_messages msgs [] a
    simpa [tallyAfter, tallyGet] using h

/-- C5: extraction returns the lower-cased first match of the permissive
pattern, scanning start positions left to right; it returns nothing
exactly when no start position matches; it is total (never panics), and
case variants of a header yield the same key. -/
theorem claim_c5_extract (s : Str) :
    (∀ m, extract s = some m →
      ∃ p m0, matchAt (s.drop p) = some m0 ∧ m = lowerStr m0 ∧
        ∀ q, q < p → matchAt (s.drop q) = none) ∧
    (extract s = none ↔ ∀ p, matchAt (s.drop p) = none) ∧
    (∀ s2, lowerStr s = lowerStr s2 → extract s = extract s2) := by
  refine ⟨?_, ⟨?_, ?_⟩, ?_⟩
  · intro m hm
    unfold extract at hm
    obtain ⟨m0, hfind, hlow⟩ := Option.map_eq_some'.mp hm
    obtain ⟨p, hp, hlt⟩ := findAddr_some s m0 hfind
    exact ⟨p, m0, hp, hlow.symm, hlt⟩
  · intro h p
    unfold extract at h
    have hfind : findAddr s = none := by
      cases hf : findAddr s
      · rfl
      · rw [hf] at h
        cases h
    exact findAddr_none s hfind p
  · intro h
    cases hf : findAddr s with
    | none =>
      unfold extract
      rw [hf]
      rfl
    | some m0 =>
      obtain ⟨p, hp, _⟩ := findAddr_some s m0 hf
      rw [h p] at hp
      cases hp
  · intro s2 hcase
    rw [← extract_lowerStr s, hcase, extract_lowerStr]

/-- Witness for C5: two case variants of a display-name header agree, and
a header without an address yields no match at a concrete position. -/
theorem claim_c5_extract_witness :
    extract ("Jane Doe <Jane@X.com>".data) = extract ("JANE DOE <jane@x.COM>".data) ∧
    matchAt (("no address here".data).drop 0) = none :=
  ⟨(claim_c5_extract ("Jane Doe <Jane@X.com>".data)).2.2 ("JANE DOE <jane@x.COM>".data)
      (by decide),
   ((claim_c5_extract ("no address here".data)).2.1.mp (by decide)) 0⟩

/-- C6: an identifier whose fetch fails is handled locally — the failure
is logged together with the identifier, the item contributes nothing to
the tally, and all remaining identifiers are still processed. -/
theorem claim_c6_fetch_failure (fetch : Str → Except ApiError Message)
    (pre post : List Str) (bad : Str) (e : ApiError) (h : fetch bad = .error e) :
    (processAll fetch (pre ++ bad :: post)).tally = (processAll fetch (pre ++ post)).tally ∧
    (processAll fetch (pre ++ bad :: post)).errLog =
      failures fetch pre ++ (bad, e) :: failures fetch post ∧
    (bad, e) ∈ (processAll fetch (pre ++ bad :: post)).errLog := by
  have hsucc : successes fetch (pre ++ bad :: post) = successes fetch (pre ++ post) := by
    simp only [successes, List.filterMap_append, List.filterMap_cons, h,
      exceptToOption_error]
  have hfail : failures fetch (pre ++ bad :: post) =
      failures fetch pre ++ (bad, e) :: failures fetch post := by
    simp only [failures, List.filterMap_append, List.filterMap_cons, h]
  refine ⟨?_, ?_, ?_⟩
  · rw [processAll, processAll, foldl_processId, foldl_processId, hsucc]
  · rw [processAll, foldl_processId, hfail]
    simp
  · rw [processAll, foldl_processId, hfail]
    simp

/-- Witness for C6 at a concrete failing environment. -/
theorem claim_c6_fetch_failure_witness :
    (("bad".data, ({ msg := "quota".data } : ApiError)) ∈
      (processAll failingFetch (["x".data] ++ "bad".data :: ["y".data])).errLog) :=
  (claim_c6_fetch_failure failingFetch ["x".data] ["y".data] "bad".data
    { msg := "quota".data } rfl).2.2

/-- C7: a failing listing page request is propagated: the Lister returns
that error (no retry) and the whole run terminates with it, producing no
tally. -/
theorem claim_c7_listing_failure (good : List ListResponse) (e : ApiError)
    (rest : List (Except ApiError ListResponse)) (fetch : Str → Except ApiError Message)
    (h : ∀ r ∈ good, r.nextPageToken.isSome = true) :
    listLoopE none (good.map Except.ok ++ Except.error e :: rest) = .error e ∧
    runProgram (good.map Except.ok ++ Except.error e :: rest) fetch = .error e := by
  have h1 := listLoopE_error good e rest none h
  refine ⟨h1, ?_⟩
  unfold runProgram
  rw [h1]

/-- Witness for C7: the second page request fails. -/
theorem claim_c7_listing_failure_witness :
    runProgram ([mockPage1].map Except.ok ++
        Except.error ({ msg := "boom".data } : ApiError) :: []) failingFetch =
      .error { msg := "boom".data } :=
  (claim_c7_listing_failure [mockPage1] { msg := "boom".data } [] failingFetch
    (by decide)).2

/-- C8: the ids are split into consecutive batches of `BATCH_SIZE`
(nonempty, all of size 100 except possibly the last) whose concatenation
is the original list; every id is dispatched exactly once and resolves
with its fetch outcome; the batched execution equals the sequential
one. -/
theorem claim_c8_batches (ids : List Str) (fetch : Str → Except ApiError Message) :
    (chunksOf BATCH_SIZE ids).flatten = ids ∧
    (∀ b ∈ chunksOf BATCH_SIZE ids, b ≠ [] ∧ b.length ≤ BATCH_SIZE) ∧
    (∀ i, i + 1 < (chunksOf BATCH_SIZE ids).length →
      ((chunksOf BATCH_SIZE ids).getD i []).length = BATCH_SIZE) ∧
    (resolutions fetch ids).map Prod.fst = ids ∧
    (∀ id1 : Str, ((resolutions fetch ids).map Prod.fst).count id1 = ids.count id1) ∧
    (∀ r ∈ resolutions fetch ids, r.2 = fetch r.1) ∧
    runBatches fetch ids = processAll fetch ids := by
  refine ⟨flatten_chunksOf _ _, mem_chunksOf _ (by norm_num [BATCH_SIZE]) _,
    chunksOf_full _ (by norm_num [BATCH_SIZE]) _, resolutions_map_fst _ _, ?_, ?_,
    runBatches_eq_processAll _ _⟩
  · intro id1
    rw [resolutions_map_fst]
  · intro r hr
    unfold resolutions at hr
    obtain ⟨l, hl, hrl⟩ := List.mem_flatten.mp hr
    obtain ⟨b, _, rfl⟩ := List.mem_map.mp hl
    obtain ⟨i, _, rfl⟩ := List.mem_map.mp hrl
    rfl

/-- Witness for C8 on two concrete ids forming one batch. -/
theorem claim_c8_batches_witness :
    (chunksOf BATCH_SIZE ["a".data, "b".data]).flatten = ["a".data, "b".data] ∧
    (["a".data, "b".data] ≠ [] ∧ (["a".data, "b".data] : List Str).length ≤ BATCH_SIZE) :=
  ⟨(claim_c8_batches ["a".data, "b".data] failingFetch).1,
   (claim_c8_batches ["a".data, "b".data] failingFetch).2.1 ["a".data, "b".data] (by
      have h1 : chunksOf BATCH_SIZE ["a".data, "b".data] = [["a".data, "b".data]] := by
        rw [chunksOf_cons, List.take_of_length_le (by norm_num [BATCH_SIZE]),
          List.drop_eq_nil_of_le (by norm_num [BATCH_SIZE]), chunksOf_nil]
      rw [h1]
      simp)⟩

/-- C9: in every reachable scheduler state, the number of in-flight
header fetches is bounded by the concurrency ceiling
`MAX_PARALLEL_BATCHES`, which is 5; the bound holds in every state, hence
is never exceeded even transiently. -/
theorem claim_c9_ceiling (ids : List Str) (s : SchedState) (h : Reachable ids s) :
    inFlightFetches s ≤ MAX_PARALLEL_BATCHES ∧ MAX_PARALLEL_BATCHES = 5 := by
  constructor
  · unfold inFlightFetches
    exact le_trans (List.countP_le_length _) (active_length_le ids s h)
  · rfl

/-- Witness for C9 at the initial scheduler state. -/
theorem claim_c9_ceiling_witness :
    inFlightFetches (initState ["a".data]) ≤ MAX_PARALLEL_BATCHES :=
  (claim_c9_ceiling ["a".data] (initState ["a".data]) Reachable.init).1

/-- C10: a successfully fetched message contributes exactly one increment
per header whose name compares equal to "from" ASCII-case-insensitively
(a missing name is a non-match) and whose value contains a pattern match,
so several "From" headers can contribute several counts; a message
without payload or headers contributes nothing while still passing
through the success branch (its fetch leaves the failure log
untouched). -/
theorem claim_c10_per_message (t : Tally) (msg : Message) (a : Str)
    (fetch : Str → Except ApiError Message) (st : RunState) (i : Str) :
    tallySum (processMessage t msg) = tallySum t + msgMatchCount msg ∧
    tallyGet (processMessage t msg) a = tallyGet t a + (msgAddrs msg).count a ∧
    (msg.payload = none → processMessage t msg = t) ∧
    (∀ p, msg.payload = some p → p.headers = none → processMessage t msg = t) ∧
    (fetch i = .ok msg →
      processId fetch st i = { st with tally := processMessage st.tally msg }) := by
  refine ⟨tallySum_processMessage t msg, tallyGet_processMessage t msg a, ?_, ?_, ?_⟩
  · intro hp
    simp [processMessage, hp]
  · intro p hp hh
    simp [processMessage, hp, hh]
  · intro hf
    simp [processId, hf]

/-- Witness for C10: the two-"From" message contributes two increments;
the empty-payload message contributes nothing; a successful fetch leaves
the log untouched. -/
theorem claim_c10_per_message_witness :
    tallySum (processMessage [] twoFromMessage) =
      tallySum ([] : Tally) + msgMatchCount twoFromMessage ∧
    msgMatchCount twoFromMessage = 2 ∧
    processMessage [] { payload := none } = ([] : Tally) ∧
    processId okFetch ⟨[], []⟩ ("i".data) =
      { (⟨[], []⟩ : RunState) with
        tally := processMessage (⟨[], []⟩ : RunState).tally twoFromMessage } :=
  ⟨(claim_c10_per_message [] twoFromMessage [] okFetch ⟨[], []⟩ ("i".data)).1,
   by decide,
   (claim_c10_per_message [] { payload := none } [] okFetch ⟨[], []⟩ ("i".data)).2.2.1 rfl,
   (claim_c10_per_message [] twoFromMessage [] okFetch ⟨[], []⟩ ("i".data)).2.2.2.2 rfl⟩

end GmailExtractor
